import Mathlib

/-!
A verification development for a Mandelbrot renderer written in Rust
(`src/main.rs`).  The program renders the escape-time fractal into a flat
byte buffer three ways: sequentially (`render`), with a static band
partition (`bands`), and with a dynamic task queue (`task_queue`).

Modelling conventions:
* `f64` values are modelled by exact rationals `ℚ`; the arithmetic the
  program performs on them (field operations and comparisons) is carried
  out exactly.  A property that hinges on IEEE rounding is therefore
  idealized by this model: notably, the byte-identity of the two
  schedulers with the sequential renderer holds here as an exact
  identity but fails in the real program, because the band corners are
  recomputed through rounded `f64` division — see the doc comments on
  the scheduler-level lemmas for a concrete deviating input.
* Rust panics (failed asserts, division by zero on `usize`, the
  `chunks_mut(0)` zero-chunk-size panic, and worker panics propagated by
  `crossbeam::scope(..).unwrap()`) are modelled by `Option`: `none` means
  the call panics, `some buf` means it completes leaving buffer `buf`.
* The two multithreaded schedulers split the buffer into disjoint slices
  before any worker writes, and each band is rendered by exactly one
  worker with a pure function of the band's index and contents; the
  resulting buffer therefore does not depend on which worker renders
  which band, and both schedulers are modelled by the per-band rendering
  folded over the band list (in the task queue's case, over the
  mutex-guarded enumerator's yield sequence).
-/

namespace Mandelbrot

/-- The `num` crate's `Complex<f64>`, with `f64` modelled by `ℚ`. -/
@[ext]
structure Complex where
  re : ℚ
  im : ℚ
deriving DecidableEq, Repr

instance : Add Complex := ⟨fun x y => ⟨x.re + y.re, x.im + y.im⟩⟩

instance : Mul Complex := ⟨fun x y => ⟨x.re * y.re - x.im * y.im, x.re * y.im + x.im * y.re⟩⟩

/-- `Complex::norm_sqr` from the `num` crate: squared magnitude. -/
def Complex.norm_sqr (z : Complex) : ℚ := z.re * z.re + z.im * z.im

/-- The `for i in 1..limit` loop of `escape_time`, written as the
equivalent while-loop: at each `i < limit`, `z` is checked against
squared magnitude 4 before the update `z = z * z + c`. -/
def escapeTimeGo (c : Complex) (limit : Nat) (z : Complex) (i : Nat) : Option Nat :=
  if i < limit then
    if z.norm_sqr > 4 then some i
    else escapeTimeGo c limit (z * z + c) (i + 1)
  else none
termination_by limit - i
decreasing_by omega

/-- `escape_time(c, limit)`: starting from `z = 0`, iterate `z = z*z + c`
for `i in 1..limit`, returning `Some i` at the first `i` whose check
`z.norm_sqr() > 4.0` fires, else `None`. -/
def escape_time (c : Complex) (limit : Nat) : Option Nat :=
  escapeTimeGo c limit ⟨0, 0⟩ 1

/-- `pixel_to_point(bounds, pixel, upper_left, lower_right)`.  `bounds`
is `(width, height)`, `pixel` is `(column, row)`. -/
def pixel_to_point (bounds pixel : Nat × Nat) (upper_left lower_right : Complex) : Complex :=
  let width := lower_right.re - upper_left.re
  let height := upper_left.im - lower_right.im
  ⟨upper_left.re + (pixel.1 : ℚ) * width / (bounds.1 : ℚ),
   upper_left.im - (pixel.2 : ℚ) * height / (bounds.2 : ℚ)⟩

/-- The byte `render` stores for one pixel: `255 - count` on escape
(`count ≤ 254`, so the `as u8` cast is the identity), `0` otherwise. -/
def pixel_value (bounds : Nat × Nat) (upper_left lower_right : Complex)
    (column row : Nat) : Nat :=
  match escape_time (pixel_to_point bounds (column, row) upper_left lower_right) 255 with
  | none => 0
  | some count => 255 - count

/-- The loop body of `render`: for `row in 0..bounds.1`, for
`column in 0..bounds.0`, write `pixels[row * bounds.0 + column]`.
(Our `bounds.1`/`bounds.2` are Rust's `bounds.0`/`bounds.1`.) -/
def render (pixels : List Nat) (bounds : Nat × Nat)
    (upper_left lower_right : Complex) : List Nat :=
  (List.range bounds.2).foldl (fun buf row =>
    (List.range bounds.1).foldl (fun buf column =>
      buf.set (row * bounds.1 + column)
        (pixel_value bounds upper_left lower_right column row)) buf) pixels

/-- `render` together with its `assert!(pixels.len() == bounds.0 * bounds.1)`:
`none` models the panic on a length mismatch. -/
def renderChecked (pixels : List Nat) (bounds : Nat × Nat)
    (upper_left lower_right : Complex) : Option (List Nat) :=
  if pixels.length = bounds.1 * bounds.2 then some (render pixels bounds upper_left lower_right)
  else none

/-- Rust's `slice::chunks_mut(size)`: consecutive chunks of `size`
elements, the last possibly shorter, never empty.  The `size = 0` case
panics in Rust; callers guard it, and the `[]` returned here for that
case is only a total-function default. -/
def chunksMut (l : List Nat) (size : Nat) : List (List Nat) :=
  if h : size = 0 ∨ l = [] then []
  else l.take size :: chunksMut (l.drop size) size
termination_by l.length
decreasing_by
  push_neg at h
  have h1 : 0 < size := Nat.pos_of_ne_zero h.1
  have h2 : 0 < l.length := List.length_pos.mpr h.2
  simpa using Nat.sub_lt h2 h1

/-- The per-band work shared by `bands` and `task_queue`: compute the
band's top row, height, bounds and sub-viewport corners, then render the
band with the sequential `render` (whose assert can panic). -/
def renderBand (bounds : Nat × Nat) (upper_left lower_right : Complex)
    (row_per_band i : Nat) (band : List Nat) : Option (List Nat) :=
  let top := row_per_band * i
  let height := band.length / bounds.1
  let band_bounds := (bounds.1, height)
  let band_upper_left := pixel_to_point bounds (0, top) upper_left lower_right
  let band_lower_right := pixel_to_point bounds (bounds.1, top + height) upper_left lower_right
  renderChecked band band_bounds band_upper_left band_lower_right

/-- `bands`'s spawn loop: one worker per enumerated band, each rendering
its own disjoint slice; the buffer is the slices reassembled in order.
A panic in any worker (`none`) fails the whole call. -/
def spawnAll (bounds : Nat × Nat) (upper_left lower_right : Complex)
    (row_per_band : Nat) : Nat → List (List Nat) → Option (List Nat)
  | _, [] => some []
  | i, band :: rest =>
    match renderBand bounds upper_left lower_right row_per_band i band,
          spawnAll bounds upper_left lower_right row_per_band (i + 1) rest with
    | some rb, some rs => some (rb ++ rs)
    | _, _ => none

/-- `bands(pixels, bounds, upper_left, lower_right, threads)`.  With
`threads = 0` the computation of `row_per_band = bounds.1 / threads + 1`
panics (usize division by zero); with `row_per_band * bounds.0 = 0`
(i.e. zero width) `chunks_mut` panics on a zero chunk size. -/
def bands (pixels : List Nat) (bounds : Nat × Nat)
    (upper_left lower_right : Complex) (threads : Nat) : Option (List Nat) :=
  if threads = 0 then none
  else
    let row_per_band := bounds.2 / threads + 1
    if row_per_band * bounds.1 = 0 then none
    else
      spawnAll bounds upper_left lower_right row_per_band 0
        (chunksMut pixels (row_per_band * bounds.1))

/-- `task_queue`'s worker loop over the mutex-guarded enumerator: pull
the next `(i, band)` pair or stop on exhaustion; each pulled band is
rendered exactly once, into its own slice, so the reassembled buffer is
the folded yield sequence regardless of which worker pulled which band. -/
def queueLoop (bounds : Nat × Nat) (upper_left lower_right : Complex)
    (row_per_band : Nat) : List (Nat × List Nat) → Option (List Nat)
  | [] => some []
  | (i, band) :: rest =>
    match renderBand bounds upper_left lower_right row_per_band i band,
          queueLoop bounds upper_left lower_right row_per_band rest with
    | some rb, some rs => some (rb ++ rs)
    | _, _ => none

/-- `task_queue(pixels, bounds, upper_left, lower_right, threads)`: the
same `row_per_band` and chunking as `bands`, with the bands handed out
through the enumerated, mutex-guarded iterator. -/
def task_queue (pixels : List Nat) (bounds : Nat × Nat)
    (upper_left lower_right : Complex) (threads : Nat) : Option (List Nat) :=
  if threads = 0 then none
  else
    let row_per_band := bounds.2 / threads + 1
    if row_per_band * bounds.1 = 0 then none
    else
      queueLoop bounds upper_left lower_right row_per_band
        (chunksMut pixels (row_per_band * bounds.1)).enum

/-- The `(top, height)` row ranges of the bands both schedulers carve
out of a buffer: band `i` starts at row `row_per_band * i` and has
`band.len() / width` rows. -/
def bandList (pixels : List Nat) (width row_per_band : Nat) : List (Nat × Nat) :=
  (chunksMut pixels (row_per_band * width)).enum.map
    (fun p => (row_per_band * p.1, p.2.length / width))

/-- Reference rendering: the row-major list of pixel values, with no
in-place mutation.  `render` is proved equal to it below. -/
def renderSpec (bounds : Nat × Nat) (upper_left lower_right : Complex) : List Nat :=
  (List.range bounds.2).flatMap (fun row =>
    (List.range bounds.1).map (fun column => pixel_value bounds upper_left lower_right column row))

/-! ### Basic algebra of the embedded `Complex` -/

theorem Complex.add_def (x y : Complex) : x + y = ⟨x.re + y.re, x.im + y.im⟩ := rfl

theorem Complex.mul_def (x y : Complex) :
    x * y = ⟨x.re * y.re - x.im * y.im, x.re * y.im + x.im * y.re⟩ := rfl

theorem origin_step : (⟨0, 0⟩ : Complex) * ⟨0, 0⟩ + ⟨0, 0⟩ = ⟨0, 0⟩ := by
  ext <;> simp [Complex.mul_def, Complex.add_def]

/-! ### Unfolding laws of the `escape_time` loop -/

theorem escapeTimeGo_stop (c : Complex) (limit : Nat) (z : Complex) (i : Nat)
    (h : ¬ i < limit) : escapeTimeGo c limit z i = none := by
  rw [escapeTimeGo.eq_def, if_neg h]

theorem escapeTimeGo_hit (c : Complex) (limit : Nat) (z : Complex) (i : Nat)
    (h : i < limit) (hz : z.norm_sqr > 4) : escapeTimeGo c limit z i = some i := by
  rw [escapeTimeGo.eq_def, if_pos h, if_pos hz]

theorem escapeTimeGo_miss (c : Complex) (limit : Nat) (z : Complex) (i : Nat)
    (h : i < limit) (hz : ¬ z.norm_sqr > 4) :
    escapeTimeGo c limit z i = escapeTimeGo c limit (z * z + c) (i + 1) := by
  rw [escapeTimeGo.eq_def, if_pos h, if_neg hz]

/-- The orbit of the origin is constantly the origin, so the loop never
fires regardless of the remaining iteration budget. -/
theorem escapeTimeGo_origin (fuel : Nat) : ∀ (limit i : Nat), limit - i ≤ fuel →
    escapeTimeGo ⟨0, 0⟩ limit ⟨0, 0⟩ i = none := by
  induction fuel with
  | zero =>
    intro limit i h
    exact escapeTimeGo_stop _ _ _ _ (by omega)
  | succ fuel ih =>
    intro limit i h
    by_cases hi : i < limit
    · rw [escapeTimeGo_miss _ _ _ _ hi (by norm_num [Complex.norm_sqr]), origin_step]
      exact ih limit (i + 1) (by omega)
    · exact escapeTimeGo_stop _ _ _ _ hi

/-- Any index the loop reports lies between the starting index and
`limit - 1`. -/
theorem escapeTimeGo_some_bound (fuel : Nat) : ∀ (c z : Complex) (limit i j : Nat),
    limit - i ≤ fuel → escapeTimeGo c limit z i = some j → i ≤ j ∧ j < limit := by
  induction fuel with
  | zero =>
    intro c z limit i j h hj
    rw [escapeTimeGo_stop _ _ _ _ (by omega)] at hj
    exact absurd hj (by simp)
  | succ fuel ih =>
    intro c z limit i j h hj
    by_cases hi : i < limit
    · by_cases hz : z.norm_sqr > 4
      · rw [escapeTimeGo_hit _ _ _ _ hi hz] at hj
        obtain rfl : i = j := by simpa using hj
        exact ⟨le_refl i, hi⟩
      · rw [escapeTimeGo_miss _ _ _ _ hi hz] at hj
        have := ih c (z * z + c) limit (i + 1) j (by omega) hj
        exact ⟨by omega, this.2⟩
    · rw [escapeTimeGo_stop _ _ _ _ hi] at hj
      exact absurd hj (by simp)

/-! ### The linear pixel map -/

theorem pixel_to_point_re (bounds pixel : Nat × Nat) (ul lr : Complex) :
    (pixel_to_point bounds pixel ul lr).re
      = ul.re + (pixel.1 : ℚ) * (lr.re - ul.re) / (bounds.1 : ℚ) := rfl

theorem pixel_to_point_im (bounds pixel : Nat × Nat) (ul lr : Complex) :
    (pixel_to_point bounds pixel ul lr).im
      = ul.im - (pixel.2 : ℚ) * (ul.im - lr.im) / (bounds.2 : ℚ) := rfl

/-- Rendering a band through its recomputed sub-viewport corners visits
exactly the points the full viewport assigns to the band's rows: local
pixel `(col, r)` of the band starting at row `top` is global pixel
`(col, top + r)`.  Exact rational arithmetic makes this an identity. -/
theorem band_point (w h top bh col r : Nat) (ul lr : Complex)
    (hw : w ≠ 0) (hh : h ≠ 0) (hbh : bh ≠ 0) :
    pixel_to_point (w, bh) (col, r)
        (pixel_to_point (w, h) (0, top) ul lr)
        (pixel_to_point (w, h) (w, top + bh) ul lr)
      = pixel_to_point (w, h) (col, top + r) ul lr := by
  have hw' : ((w : ℚ)) ≠ 0 := Nat.cast_ne_zero.mpr hw
  have hh' : ((h : ℚ)) ≠ 0 := Nat.cast_ne_zero.mpr hh
  have hbh' : ((bh : ℚ)) ≠ 0 := Nat.cast_ne_zero.mpr hbh
  ext
  · simp only [pixel_to_point_re]
    push_cast
    field_simp
  · simp only [pixel_to_point_im, pixel_to_point_re]
    push_cast
    field_simp
    ring

/-! ### The sequential renderer rewrites the buffer row-major -/

/-- One pass of `render`'s inner column loop overwrites exactly the `w`
bytes starting at `base` with the freshly computed values. -/
theorem foldl_set_row (g : Nat → Nat) (buf : List Nat) (base : Nat) :
    ∀ w : Nat, base + w ≤ buf.length →
      (List.range w).foldl (fun b column => b.set (base + column) (g column)) buf
        = buf.take base ++ ((List.range w).map g ++ buf.drop (base + w)) := by
  intro w
  induction w with
  | zero => simp
  | succ w ih =>
    intro h
    rw [List.range_succ, List.foldl_append, List.foldl_cons, List.foldl_nil, ih (by omega)]
    rw [List.set_append_right _ _ (by simp only [List.length_take]; omega)]
    rw [List.length_take_of_le (by omega), Nat.add_sub_cancel_left]
    rw [List.set_append_right _ _ (by simp)]
    rw [List.length_map, List.length_range, Nat.sub_self]
    rw [List.drop_eq_getElem_cons (by omega), List.set_cons_zero]
    simp [List.range_succ, Nat.add_assoc, Nat.add_comm 1 w]

theorem length_rowsBlock (w : Nat) (g : Nat → Nat → Nat) :
    ∀ k : Nat, ((List.range k).flatMap (fun row => (List.range w).map (g row))).length
      = k * w := by
  intro k
  induction k with
  | zero => simp
  | succ k ih =>
    rw [List.range_succ, List.flatMap_append, List.length_append, ih]
    simp [Nat.succ_mul]

/-- After `k` passes of `render`'s outer row loop, the first `k` rows of
the buffer hold the computed values and the rest is untouched. -/
theorem render_loop_prefix (w h : Nat) (ul lr : Complex) (pixels : List Nat)
    (hlen : pixels.length = w * h) :
    ∀ k : Nat, k ≤ h →
      (List.range k).foldl (fun buf row =>
          (List.range w).foldl (fun b column =>
            b.set (row * w + column) (pixel_value (w, h) ul lr column row)) buf) pixels
        = (List.range k).flatMap (fun row =>
            (List.range w).map (fun column => pixel_value (w, h) ul lr column row))
          ++ pixels.drop (k * w) := by
  intro k
  induction k with
  | zero => simp
  | succ k ih =>
    intro hk
    rw [List.range_succ, List.foldl_append, List.foldl_cons, List.foldl_nil, ih (by omega)]
    have hblock := length_rowsBlock w (fun row column => pixel_value (w, h) ul lr column row) k
    have hkw : (k + 1) * w ≤ w * h := by
      calc (k + 1) * w ≤ h * w := Nat.mul_le_mul_right w hk
      _ = w * h := Nat.mul_comm h w
    have hlen2 : k * w + w ≤ ((List.range k).flatMap (fun row =>
        (List.range w).map (fun column => pixel_value (w, h) ul lr column row))
        ++ pixels.drop (k * w)).length := by
      rw [List.length_append, hblock, List.length_drop, hlen]
      have : k * w + w = (k + 1) * w := (Nat.succ_mul k w).symm
      omega
    rw [foldl_set_row (fun column => pixel_value (w, h) ul lr column k) _ (k * w) w hlen2]
    rw [List.take_append_of_le_length (by rw [hblock]),
        List.take_of_length_le (by rw [hblock])]
    rw [List.drop_append_eq_append_drop, hblock,
        List.drop_eq_nil_of_le (by rw [hblock]; omega), List.drop_drop]
    have harith : k * w + (k * w + w - k * w) = (k + 1) * w := by
      rw [Nat.succ_mul]; omega
    rw [harith]
    simp [List.flatMap_append, Nat.succ_mul]

/-- `render` computes the row-major list of pixel values whenever its
length precondition holds: the initial buffer contents are irrelevant. -/
theorem render_eq_renderSpec (pixels : List Nat) (w h : Nat) (ul lr : Complex)
    (hlen : pixels.length = w * h) :
    render pixels (w, h) ul lr = renderSpec (w, h) ul lr := by
  have := render_loop_prefix w h ul lr pixels hlen h (le_refl h)
  rw [render, renderSpec]
  simpa [List.drop_eq_nil_of_le, hlen, Nat.mul_comm w h] using this

/-- Indexing into a row-major block list: entry `r * w + c` of the rows
`a, a+1, ...` is pixel `(c, a + r)`. -/
theorem rowsBlock_getElem? (w : Nat) (g : Nat → Nat → Nat) :
    ∀ (n a r c : Nat), r < n → c < w →
      ((List.range' a n).flatMap (fun row => (List.range w).map (g row)))[r * w + c]?
        = some (g (a + r) c) := by
  intro n
  induction n with
  | zero => intro a r c hr; omega
  | succ n ih =>
    intro a r c hr hc
    rw [List.range'_succ, List.flatMap_cons]
    match r with
    | 0 =>
      rw [List.getElem?_append_left (by simpa using hc)]
      simp [List.getElem?_range hc]
    | r + 1 =>
      rw [List.getElem?_append_right (by simp [Nat.succ_mul]; omega)]
      have hidx : (r + 1) * w + c - ((List.range w).map (g a)).length = r * w + c := by
        simp only [List.length_map, List.length_range, Nat.succ_mul]; omega
      rw [hidx, ih (a + 1) r c (by omega) hc,
        show a + 1 + r = a + (r + 1) from by omega]

/-- The band rendered through its own sub-viewport corners produces
exactly the global pixel values of its row range. -/
theorem renderSpec_band (w h top bh : Nat) (ul lr : Complex)
    (hw : w ≠ 0) (hh : h ≠ 0) (hbh : bh ≠ 0) :
    renderSpec (w, bh)
        (pixel_to_point (w, h) (0, top) ul lr)
        (pixel_to_point (w, h) (w, top + bh) ul lr)
      = (List.range' top bh).flatMap (fun row =>
          (List.range w).map (fun column => pixel_value (w, h) ul lr column row)) := by
  rw [renderSpec]
  have hpix : ∀ row column : Nat,
      pixel_value (w, bh)
          (pixel_to_point (w, h) (0, top) ul lr)
          (pixel_to_point (w, h) (w, top + bh) ul lr) column row
        = pixel_value (w, h) ul lr column (top + row) := by
    intro row column
    unfold pixel_value
    rw [band_point w h top bh column row ul lr hw hh hbh]
  rw [List.range'_eq_map_range, List.flatMap_map]
  simp only [hpix]

/-! ### The band chunking shared by both schedulers -/

theorem chunksMut_nil (size : Nat) : chunksMut [] size = [] := by
  rw [chunksMut.eq_def]
  simp

theorem chunksMut_split (l : List Nat) (size : Nat) (hsz : size ≠ 0) (hl : l ≠ []) :
    chunksMut l size = l.take size :: chunksMut (l.drop size) size := by
  rw [chunksMut.eq_def]
  rw [dif_neg (by push_neg; exact ⟨hsz, hl⟩)]

/-- Folding the per-band renders over the chunks of a buffer of `n` rows
yields the global pixel values of rows `rpb * i, ..., rpb * i + n - 1`,
in order, with every band's `assert` satisfied. -/
theorem spawnAll_chunks (w h rpb : Nat) (ul lr : Complex)
    (hw : 0 < w) (hh : 0 < h) (hrpb : 0 < rpb) :
    ∀ n : Nat, ∀ (i : Nat) (seg : List Nat), seg.length = w * n →
      spawnAll (w, h) ul lr rpb i (chunksMut seg (rpb * w))
        = some ((List.range' (rpb * i) n).flatMap (fun row =>
            (List.range w).map (fun column => pixel_value (w, h) ul lr column row))) := by
  intro n
  induction n using Nat.strong_induction_on with
  | _ n ih =>
    intro i seg hseg
    rcases Nat.eq_zero_or_pos n with hn | hn
    · subst hn
      have hnil : seg = [] := List.eq_nil_of_length_eq_zero (by simpa using hseg)
      subst hnil
      rw [chunksMut_nil]
      simp [spawnAll]
    · have hne : seg ≠ [] := by
        intro hcontra
        rw [hcontra] at hseg
        have := Nat.mul_pos hw hn
        simp at hseg
        omega
      rw [chunksMut_split seg (rpb * w) (Nat.mul_ne_zero (by omega) (by omega)) hne]
      have hband : (seg.take (rpb * w)).length = w * min rpb n := by
        rw [List.length_take, hseg, Nat.mul_comm rpb w, Nat.mul_min_mul_left]
      have hmpos : 0 < min rpb n := by omega
      have hrb : renderBand (w, h) ul lr rpb i (seg.take (rpb * w))
          = some ((List.range' (rpb * i) (min rpb n)).flatMap (fun row =>
              (List.range w).map (fun column => pixel_value (w, h) ul lr column row))) := by
        unfold renderBand renderChecked
        rw [hband, Nat.mul_div_cancel_left _ hw, if_pos rfl]
        rw [render_eq_renderSpec _ w (min rpb n) _ _ hband]
        rw [renderSpec_band w h (rpb * i) (min rpb n) ul lr (by omega) (by omega) (by omega)]
      have hdrop : (seg.drop (rpb * w)).length = w * (n - min rpb n) := by
        rw [List.length_drop, hseg]
        rcases le_total rpb n with hle | hle
        · rw [Nat.min_eq_left hle, Nat.mul_sub_left_distrib, Nat.mul_comm rpb w]
        · rw [Nat.min_eq_right hle, Nat.sub_self, Nat.mul_zero,
            Nat.sub_eq_zero_of_le (by rw [Nat.mul_comm rpb w]; exact Nat.mul_le_mul_left w hle)]
      have hrest := ih (n - min rpb n) (by omega) (i + 1) (seg.drop (rpb * w)) hdrop
      simp only [spawnAll]
      rw [hrb, hrest]
      refine congrArg some ?_
      rcases le_total rpb n with hle | hle
      · rw [Nat.min_eq_left hle]
        rw [show rpb * (i + 1) = rpb * i + rpb from Nat.mul_succ rpb i]
        rw [← List.flatMap_append, List.range'_append_1]
        rw [show n - rpb + rpb = n from by omega]
      · rw [Nat.min_eq_right hle]
        simp [Nat.sub_self]

/-- Pulling enumerated bands from the queue one at a time performs the
same renders as spawning one worker per band. -/
theorem queueLoop_enumFrom (bounds : Nat × Nat) (ul lr : Complex) (rpb : Nat) :
    ∀ (l : List (List Nat)) (i : Nat),
      queueLoop bounds ul lr rpb (l.enumFrom i) = spawnAll bounds ul lr rpb i l := by
  intro l
  induction l with
  | nil => intro i; rfl
  | cons band rest ih =>
    intro i
    rw [List.enumFrom_cons]
    simp only [queueLoop, spawnAll]
    rw [ih (i + 1)]

/-- The row ranges of the chunks of a buffer of `n` rows, with the tops
taken from the enumeration starting at `i`, tile `rpb * i, ..,
rpb * i + n - 1` exactly. -/
theorem bandRows_chunks (w rpb : Nat) (hw : 0 < w) (hrpb : 0 < rpb) :
    ∀ n : Nat, ∀ (i : Nat) (seg : List Nat), seg.length = w * n →
      (((chunksMut seg (rpb * w)).enumFrom i).map
          (fun p => (rpb * p.1, p.2.length / w))).flatMap
          (fun p => List.range' p.1 p.2)
        = List.range' (rpb * i) n := by
  intro n
  induction n using Nat.strong_induction_on with
  | _ n ih =>
    intro i seg hseg
    rcases Nat.eq_zero_or_pos n with hn | hn
    · subst hn
      have hnil : seg = [] := List.eq_nil_of_length_eq_zero (by simpa using hseg)
      subst hnil
      rw [chunksMut_nil]
      rfl
    · have hne : seg ≠ [] := by
        intro hcontra
        rw [hcontra] at hseg
        have := Nat.mul_pos hw hn
        simp at hseg
        omega
      rw [chunksMut_split seg (rpb * w) (Nat.mul_ne_zero (by omega) (by omega)) hne]
      have hband : (seg.take (rpb * w)).length = w * min rpb n := by
        rw [List.length_take, hseg, Nat.mul_comm rpb w, Nat.mul_min_mul_left]
      have hdrop : (seg.drop (rpb * w)).length = w * (n - min rpb n) := by
        rw [List.length_drop, hseg]
        rcases le_total rpb n with hle | hle
        · rw [Nat.min_eq_left hle, Nat.mul_sub_left_distrib, Nat.mul_comm rpb w]
        · rw [Nat.min_eq_right hle, Nat.sub_self, Nat.mul_zero,
            Nat.sub_eq_zero_of_le (by rw [Nat.mul_comm rpb w]; exact Nat.mul_le_mul_left w hle)]
      rw [List.enumFrom_cons, List.map_cons, List.flatMap_cons]
      rw [hband, Nat.mul_div_cancel_left _ hw]
      rw [ih (n - min rpb n) (by omega) (i + 1) (seg.drop (rpb * w)) hdrop]
      rcases le_total rpb n with hle | hle
      · rw [Nat.min_eq_left hle]
        rw [show rpb * (i + 1) = rpb * i + rpb from Nat.mul_succ rpb i]
        rw [List.range'_append_1]
        rw [show n - rpb + rpb = n from by omega]
      · rw [Nat.min_eq_right hle]
        simp [Nat.sub_self]

/-! ### Scheduler-level equalities, in the exact-arithmetic model -/

/-- In the exact-rational model, `bands` reproduces the sequential
`render` buffer for every valid input.  This equality is a property of
the exact model only: under IEEE `f64` the recomputed band corners round
(e.g. for corners `-2+1i`, `1-1i` and height 40, the second band's
corner imaginaries become `0.30000000000000004` and
`-0.3999999999999999` instead of `0.3` and `-0.4`), perturbing
band-local pixel coordinates by ulps; escape counts of boundary pixels
then flip, and the real program's `bands` buffer can differ byte-wise
from `render`'s (at bounds `(60, 40)`, those corners and 3 threads, the
pixel of row 20, column 0 maps globally to `-2 + 0i`, which never
escapes, but band-locally to `-2 + 2^-53 i`, which escapes at
iteration 17). -/
theorem bands_eq_render (pixels : List Nat) (w h threads : Nat) (ul lr : Complex)
    (hw : 0 < w) (hh : 0 < h) (ht : 1 ≤ threads) (hlen : pixels.length = w * h) :
    bands pixels (w, h) ul lr threads = some (render pixels (w, h) ul lr) := by
  have key := spawnAll_chunks w h (h / threads + 1) ul lr hw hh (Nat.succ_pos _)
    h 0 pixels hlen
  unfold bands
  rw [if_neg (by omega)]
  show (if (h / threads + 1) * w = 0 then none
      else spawnAll (w, h) ul lr (h / threads + 1) 0
        (chunksMut pixels ((h / threads + 1) * w)))
    = some (render pixels (w, h) ul lr)
  rw [if_neg (Nat.mul_ne_zero (Nat.succ_ne_zero _) (by omega))]
  rw [key, render_eq_renderSpec pixels w h ul lr hlen]
  refine congrArg some ?_
  rw [Nat.mul_zero, ← List.range_eq_range']
  rfl

/-- In the exact-rational model, `task_queue` likewise reproduces the
sequential `render` buffer; the IEEE `f64` caveat on `bands_eq_render`
applies here identically (both schedulers perform the same per-band
computation, so they always agree with each other byte-for-byte, but
only exactly-rounded corners make them agree with `render`). -/
theorem task_queue_eq_render (pixels : List Nat) (w h threads : Nat) (ul lr : Complex)
    (hw : 0 < w) (hh : 0 < h) (ht : 1 ≤ threads) (hlen : pixels.length = w * h) :
    task_queue pixels (w, h) ul lr threads = some (render pixels (w, h) ul lr) := by
  have key := spawnAll_chunks w h (h / threads + 1) ul lr hw hh (Nat.succ_pos _)
    h 0 pixels hlen
  unfold task_queue
  rw [if_neg (by omega)]
  show (if (h / threads + 1) * w = 0 then none
      else queueLoop (w, h) ul lr (h / threads + 1)
        (chunksMut pixels ((h / threads + 1) * w)).enum)
    = some (render pixels (w, h) ul lr)
  rw [if_neg (Nat.mul_ne_zero (Nat.succ_ne_zero _) (by omega))]
  rw [List.enum_eq_enumFrom, queueLoop_enumFrom]
  rw [key, render_eq_renderSpec pixels w h ul lr hlen]
  refine congrArg some ?_
  rw [Nat.mul_zero, ← List.range_eq_range']
  rfl

/-! ### The claims -/

/-- C2: for every bounds with positive width and height and every
`thread_count ≥ 1`, the bands produced by the shared chunking of the
static and dynamic schedulers (`rows_per_band = height / thread_count + 1`
rows each, trailing band possibly shorter) tile the rows `0, ..,
height - 1` exactly once: their row ranges concatenate, in order, to the
duplicate-free list of all rows, so no row is omitted and none is
assigned to two bands — also when `height` is not divisible by
`thread_count` and when `thread_count` exceeds `height`. -/
theorem C2_bands_partition_rows (pixels : List Nat) (w h threads : Nat)
    (hw : 0 < w) (hh : 0 < h) (ht : 1 ≤ threads) (hlen : pixels.length = w * h) :
    (bandList pixels w (h / threads + 1)).flatMap (fun p => List.range' p.1 p.2)
      = List.range h := by
  unfold bandList
  rw [List.enum_eq_enumFrom]
  rw [bandRows_chunks w (h / threads + 1) hw (Nat.succ_pos _) h 0 pixels hlen]
  rw [Nat.mul_zero, ← List.range_eq_range']

theorem C2_witness :
    (0 < 3 ∧ 0 < 5 ∧ 1 ≤ 2 ∧ (List.replicate 15 0).length = 3 * 5) ∧
    (bandList (List.replicate 15 0) 3 (5 / 2 + 1)).flatMap
        (fun p => List.range' p.1 p.2)
      = List.range 5 :=
  ⟨⟨by norm_num, by norm_num, by norm_num, by simp⟩,
   C2_bands_partition_rows (List.replicate 15 0) 3 5 2
     (by norm_num) (by norm_num) (by norm_num) (by simp)⟩

/-- C3 counterexample: calling the `render` entry point with degenerate
geometry (zero width) is not rejected with an "invalid argument" failure
— the call completes successfully, returning the (empty) buffer. -/
theorem C3_counterexample :
    renderChecked [] (0, 5) ⟨0, 0⟩ ⟨1, 1⟩ = some [] := rfl

/-- C3 amended: no entry point validates its arguments.  `render` accepts
zero width or zero height and completes as a no-op; `bands` and
`task_queue` fail on zero thread count (usize division by zero) and on
zero width (zero chunk size in `chunks_mut`) with panics raised during
scheduling, not with a pre-scheduling "invalid argument" rejection, and
accept zero height (with its empty buffer) without error, producing no
bands. -/
theorem C3_no_degenerate_validation (pixels : List Nat) (w h threads : Nat)
    (ul lr : Complex) :
    bands pixels (w, h) ul lr 0 = none ∧
    task_queue pixels (w, h) ul lr 0 = none ∧
    bands pixels (0, h) ul lr (threads + 1) = none ∧
    task_queue pixels (0, h) ul lr (threads + 1) = none ∧
    bands [] (w + 1, 0) ul lr (threads + 1) = some [] ∧
    task_queue [] (w + 1, 0) ul lr (threads + 1) = some [] ∧
    renderChecked [] (0, h) ul lr = some (render [] (0, h) ul lr) ∧
    renderChecked [] (w, 0) ul lr = some (render [] (w, 0) ul lr) := by
  refine ⟨rfl, rfl, ?_, ?_, ?_, ?_, ?_, ?_⟩
  · simp [bands]
  · simp [task_queue]
  · simp [bands, Nat.zero_div, chunksMut_nil, spawnAll]
  · simp [task_queue, Nat.zero_div, chunksMut_nil, queueLoop]
  · rw [renderChecked, if_pos (by simp)]
  · rw [renderChecked, if_pos (by simp)]

/-- C4: under the precondition `buffer.length = width * height` (whose
violation aborts via the assertion, modelled by `none`), `render` writes
at index `row * width + column` the byte `255 - count` when
`escape_time(pixel_to_point(bounds, (column, row), ul, lr), 255)` escapes
with count `count`, and `0` when it does not escape. -/
theorem C4_render_row_major (pixels : List Nat) (w h : Nat) (ul lr : Complex) :
    (pixels.length ≠ w * h → renderChecked pixels (w, h) ul lr = none) ∧
    (pixels.length = w * h → ∀ row col : Nat, row < h → col < w →
      (render pixels (w, h) ul lr)[row * w + col]?
        = some (match escape_time (pixel_to_point (w, h) (col, row) ul lr) 255 with
            | none => 0
            | some count => 255 - count)) := by
  constructor
  · intro hne
    rw [renderChecked, if_neg hne]
  · intro hlen row col hrow hcol
    rw [render_eq_renderSpec pixels w h ul lr hlen]
    have key := rowsBlock_getElem? w
      (fun r c => pixel_value (w, h) ul lr c r) h 0 row col hrow hcol
    rw [Nat.zero_add] at key
    rw [renderSpec, List.range_eq_range']
    exact key

theorem C4_witness :
    ([0, 0, 0, 0] : List Nat).length = 2 * 2 ∧
    (render [0, 0, 0, 0] (2, 2) ⟨10, 10⟩ ⟨12, 8⟩)[1 * 2 + 0]?
      = some (match escape_time (pixel_to_point (2, 2) (0, 1) ⟨10, 10⟩ ⟨12, 8⟩) 255 with
          | none => 0
          | some count => 255 - count) ∧
    (([9] : List Nat).length ≠ 2 * 2 ∧
      renderChecked [9] (2, 2) ⟨10, 10⟩ ⟨12, 8⟩ = none) :=
  ⟨rfl, (C4_render_row_major [0, 0, 0, 0] 2 2 ⟨10, 10⟩ ⟨12, 8⟩).2 rfl 1 0
    (by norm_num) (by norm_num),
   by norm_num,
   (C4_render_row_major [9] 2 2 ⟨10, 10⟩ ⟨12, 8⟩).1 (by norm_num)⟩

/-- C5: for every `limit ≥ 1`, `escape_time` applied to the origin
returns "no escape": the orbit of `0` never exceeds squared magnitude 4
within any iteration budget. -/
theorem C5_escape_time_origin (limit : Nat) (hlim : 1 ≤ limit) :
    escape_time ⟨0, 0⟩ limit = none := by
  rw [escape_time]
  exact escapeTimeGo_origin (limit - 1) limit 1 (by omega)

theorem C5_witness : 1 ≤ 255 ∧ escape_time ⟨0, 0⟩ 255 = none :=
  ⟨by norm_num, C5_escape_time_origin 255 (by norm_num)⟩

/-- C6 counterexample: the claim fails as stated because the reported
index is quantified over every limit: for the real point `3` (of modulus
`> 2`) and `limit = 2` the loop updates `z` once but never sees the
escaped value, so no escape is reported. -/
theorem C6_counterexample : escape_time ⟨3, 0⟩ 2 = none := by
  rw [escape_time,
    escapeTimeGo_miss _ _ _ _ (by omega) (by norm_num [Complex.norm_sqr])]
  exact escapeTimeGo_stop _ _ _ _ (by omega)

/-- C6 amended: for every real-axis point `c` with `|c| > 2` and every
`limit ≥ 3`, `escape_time(c, limit)` escapes, always with index 2: the
loop counts from 1 and checks before it updates, so the single call site
(`render`, with limit 255) sees the convention "first possible escape
index is 2" applied consistently. -/
theorem C6_real_axis_escape (c : Complex) (limit : Nat)
    (hre : 2 < |c.re|) (him : c.im = 0) (hlim : 3 ≤ limit) :
    escape_time c limit = some 2 := by
  have hsq : 4 < c.re * c.re := by
    have h2 : (2 : ℚ) * 2 < |c.re| * |c.re| := mul_self_lt_mul_self (by norm_num) hre
    rw [abs_mul_abs_self] at h2
    linarith
  rw [escape_time,
    escapeTimeGo_miss _ _ _ _ (by omega) (by norm_num [Complex.norm_sqr])]
  rw [show (⟨0, 0⟩ : Complex) * ⟨0, 0⟩ + c = c from by
    ext <;> simp [Complex.mul_def, Complex.add_def]]
  exact escapeTimeGo_hit _ _ _ _ (by omega)
    (by rw [Complex.norm_sqr, him]; simpa using hsq)

theorem C6_witness :
    (2 < |(3 : ℚ)| ∧ (0 : ℚ) = 0 ∧ 3 ≤ 3) ∧ escape_time ⟨3, 0⟩ 3 = some 2 :=
  ⟨⟨by norm_num, rfl, le_refl 3⟩,
   C6_real_axis_escape ⟨3, 0⟩ 3 (by norm_num) rfl (le_refl 3)⟩

/-- C7: for every bounds with nonzero width and height and every pair of
corners, `pixel_to_point` maps pixel `(0, 0)` exactly to `upper_left`. -/
theorem C7_pixel_zero_is_upper_left (bounds : Nat × Nat) (ul lr : Complex)
    (hw : bounds.1 ≠ 0) (hh : bounds.2 ≠ 0) :
    pixel_to_point bounds (0, 0) ul lr = ul := by
  ext
  · rw [pixel_to_point_re]
    simp
  · rw [pixel_to_point_im]
    simp

theorem C7_witness :
    ((7, 5) : Nat × Nat).1 ≠ 0 ∧ ((7, 5) : Nat × Nat).2 ≠ 0 ∧
    pixel_to_point (7, 5) (0, 0) ⟨1/3, 2⟩ ⟨4, -9⟩ = ⟨1/3, 2⟩ :=
  ⟨by norm_num, by norm_num,
   C7_pixel_zero_is_upper_left (7, 5) ⟨1/3, 2⟩ ⟨4, -9⟩ (by norm_num) (by norm_num)⟩

/-- C8: the concrete case from the source's own test: bounds (100, 200),
pixel (25, 175), corners `-1+1i` and `1-1i` map to `-0.5 - 0.75i`. -/
theorem C8_concrete_pixel :
    pixel_to_point (100, 200) (25, 175) ⟨-1, 1⟩ ⟨1, -1⟩ = ⟨-1/2, -3/4⟩ := by
  ext
  · rw [pixel_to_point_re]
    norm_num
  · rw [pixel_to_point_im]
    norm_num

/-- C9: every escape index `i` reported by `escape_time(c, limit)`
satisfies `1 ≤ i ≤ limit - 1`; with `limit ≤ 1` no escape is ever
reported; hence at `render`'s call site (limit 255) the stored byte
`255 - count` never underflows and is never 255 — an escaped pixel's
intensity lies in `1 ..= 254`. -/
theorem C9_escape_index_bounds (c : Complex) (limit i : Nat) :
    (escape_time c limit = some i → 1 ≤ i ∧ i ≤ limit - 1) ∧
    (limit ≤ 1 → escape_time c limit = none) ∧
    (escape_time c 255 = some i → 1 ≤ 255 - i ∧ 255 - i ≤ 254) := by
  refine ⟨?_, ?_, ?_⟩
  · intro hsome
    rw [escape_time] at hsome
    have := escapeTimeGo_some_bound (limit - 1) c ⟨0, 0⟩ limit 1 i (by omega) hsome
    omega
  · intro hlim
    rw [escape_time]
    exact escapeTimeGo_stop _ _ _ _ (by omega)
  · intro hsome
    rw [escape_time] at hsome
    have := escapeTimeGo_some_bound 254 c ⟨0, 0⟩ 255 1 i (by omega) hsome
    omega

theorem C9_witness :
    escape_time ⟨3, 0⟩ 255 = some 2 ∧ (1 ≤ 2 ∧ 2 ≤ 255 - 1) ∧
    escape_time ⟨3, 0⟩ 1 = none ∧ (1 ≤ 255 - 2 ∧ 255 - 2 ≤ 254) := by
  have h3 : escape_time ⟨3, 0⟩ 255 = some 2 := by
    rw [escape_time,
      escapeTimeGo_miss _ _ _ _ (by omega) (by norm_num [Complex.norm_sqr])]
    rw [show (⟨0, 0⟩ : Complex) * ⟨0, 0⟩ + ⟨3, 0⟩ = ⟨3, 0⟩ from by
      ext <;> simp [Complex.mul_def, Complex.add_def]]
    exact escapeTimeGo_hit _ _ _ _ (by omega) (by norm_num [Complex.norm_sqr])
  exact ⟨h3, (C9_escape_index_bounds ⟨3, 0⟩ 255 2).1 h3,
    (C9_escape_index_bounds ⟨3, 0⟩ 1 0).2.1 (le_refl 1),
    (C9_escape_index_bounds ⟨3, 0⟩ 255 2).2.2 h3⟩

/-- C10: `render` overwrites every byte of the buffer: two buffers of the
correct length but arbitrary different initial contents end up with
identical final contents, so the output depends only on the declared
inputs and not on the buffer's prior state. -/
theorem C10_output_ignores_initial_buffer (b1 b2 : List Nat) (w h : Nat)
    (ul lr : Complex) (h1 : b1.length = w * h) (h2 : b2.length = w * h) :
    render b1 (w, h) ul lr = render b2 (w, h) ul lr := by
  rw [render_eq_renderSpec b1 w h ul lr h1, render_eq_renderSpec b2 w h ul lr h2]

theorem C10_witness :
    ([3, 1, 4] : List Nat).length = 3 * 1 ∧ ([9, 2, 6] : List Nat).length = 3 * 1 ∧
    render [3, 1, 4] (3, 1) ⟨0, 0⟩ ⟨1, 1⟩ = render [9, 2, 6] (3, 1) ⟨0, 0⟩ ⟨1, 1⟩ :=
  ⟨rfl, rfl, C10_output_ignores_initial_buffer [3, 1, 4] [9, 2, 6] 3 1 ⟨0, 0⟩ ⟨1, 1⟩ rfl rfl⟩

end Mandelbrot
